import Mathlib

/-!
Verification of the wave-lang kernel expansion core against its design
specification.  The development shallowly embeds the relevant Python code:

* `wave_lang/kernel/wave/expansion/expansion_utils.py`
  (`get_dim_scaling`, `get_reshape_dim_queries`, `get_expanded_name`,
  `remove_original_nodes`, `remove_unused_registers`,
  `remove_unused_iter_args`);
* `wave_lang/kernel/lang/wave_types.py`
  (`Memory.__class_getitem__`, `Register.__class_getitem__`,
  `IndexMapping.__init__`, `IndexMapping.substitute`).

Python dictionaries become ordered association lists (insertion order is kept
and assignment overwrites in place, as in CPython), sympy index symbols become
strings, sympy expressions become a small `SymExpr` datatype, raised
exceptions become `Except String`, and the ambient `IndexingContext` becomes
an explicit environment mapping symbols to statically known values.
-/

namespace WaveSpec

/-- Association-list lookup, mirroring Python dict access: the first binding
of the key (there is at most one, as `aupsert` never duplicates keys). -/
def alookup {α : Type} : List (String × α) → String → Option α
  | [], _ => none
  | (k, v) :: rest, q => if k = q then some v else alookup rest q

/-- Association-list update, mirroring Python dict assignment: an existing
key keeps its position and gets the new value, a fresh key is appended. -/
def aupsert {α : Type} : List (String × α) → String → α → List (String × α)
  | [], k, v => [(k, v)]
  | (k0, v0) :: rest, k, v =>
      if k0 = k then (k0, v) :: rest else (k0, v0) :: aupsert rest k v

theorem alookup_aupsert_self {α : Type} (m : List (String × α)) (k : String) (v : α) :
    alookup (aupsert m k v) k = some v := by
  induction m with
  | nil => simp [aupsert, alookup]
  | cons hd tl ih =>
      obtain ⟨k0, v0⟩ := hd
      by_cases h : k0 = k
      · simp [aupsert, alookup, h]
      · simp [aupsert, alookup, h, ih]

theorem alookup_aupsert_ne {α : Type} (m : List (String × α)) (k q : String) (v : α)
    (h : k ≠ q) : alookup (aupsert m k v) q = alookup m q := by
  induction m with
  | nil => simp [aupsert, alookup, h]
  | cons hd tl ih =>
      obtain ⟨k0, v0⟩ := hd
      by_cases h0 : k0 = k
      · subst h0
        simp [aupsert, alookup, h]
      · by_cases h1 : k0 = q
        · subst h1
          simp [aupsert, alookup, h0]
        · simp [aupsert, alookup, h0, h1, ih]

/-- Sympy index expressions, restricted to the shapes the expansion core
actually builds: a bare index symbol, an integer literal, and an expression
divided by a constant (derived shape entries such as `K / 2`). -/
inductive SymExpr : Type
  | sym (d : String)
  | lit (n : Nat)
  | divE (e : SymExpr) (k : Nat)
deriving DecidableEq

/-- Modelled from the spec: `infer_dim` (wave utils, not under src) recovers
the raw dimension symbol underlying a (possibly derived) shape expression;
an expression with no symbol has no dimension. -/
def infer_dim : SymExpr → Option String
  | .sym d => some d
  | .lit _ => none
  | .divE e _ => infer_dim e

/-- Substitution of a single symbol by an expression, as sympy `expr.subs`. -/
def subsE (e : SymExpr) (d : String) (r : SymExpr) : SymExpr :=
  match e with
  | .sym x => if x = d then r else .sym x
  | .lit n => .lit n
  | .divE e0 k => .divE (subsE e0 d r) k

/-- Modelled from the spec: `IndexingContext.get_static_value` resolves an
expression to a concrete number using the environment of statically known
symbols, and yields nothing when a symbol is unknown or a division is not
exact (the value is then not a statically known integer). -/
def get_static_value (idxc : String → Option Nat) : SymExpr → Option Nat
  | .sym d => idxc d
  | .lit n => some n
  | .divE e k =>
      match get_static_value idxc e with
      | none => none
      | some n => if k ≠ 0 ∧ n % k = 0 then some (n / k) else none

/-- Except projection used in theorem statements: the payload of a success. -/
def okOf {α : Type} : Except String α → Option α
  | .ok a => some a
  | .error _ => none

/-- Except projection used in theorem statements: the message of a failure. -/
def errOf {α : Type} : Except String α → Option String
  | .ok _ => none
  | .error e => some e

/-! ## Reshape coordinate queries (`get_reshape_dim_queries`) -/

/-- The slice of a `Reshape` operation read by `get_reshape_dim_queries`:
its own per-dimension vector shapes and the target vector shapes of the
values it reshapes. -/
structure Reshape where
  vector_shapes : List (String × Nat)
  target_vector_shape : List (String × Nat)
deriving DecidableEq

/-- The slice of `ExpansionMetadata` read by `get_reshape_dim_queries`: the
replica coordinate (`dim_query`) of the reshape clone being expanded.  The
remaining bookkeeping fields of the Python class are not consulted there. -/
structure ExpansionMetadata where
  dim_query : List (String × Nat)
deriving DecidableEq

/-- Cross product of the per-dimension coordinate lists, in the order
`itertools.product` enumerates it (first list varies slowest). -/
def listProd {α : Type} : List (List α) → List (List α)
  | [] => [[]]
  | xs :: rest => xs.flatMap (fun x => (listProd rest).map (fun c => x :: c))

/-- Per-dimension source-coordinate lists for a reshape clone, walking the
`dim_query` in order: a dimension absent from the target vector shape is
skipped, otherwise the split (`s < t`) or merge (`s ≥ t`) rule applies.
Yields `none` when a dimension is missing from the reshape's own
`vector_shapes` (a `KeyError` in the source) and when the scale-factor
division has a zero divisor — `t // s` with `s = 0` in the split branch,
`s // t` with `t = 0` in the merge branch (a `ZeroDivisionError` in the
source). -/
def reshapeDimCombos (r : Reshape) : List (String × Nat) → Option (List (String × List Nat))
  | [] => some []
  | (dim, value) :: rest =>
      match alookup r.target_vector_shape dim with
      | none => reshapeDimCombos r rest
      | some t =>
          match alookup r.vector_shapes dim with
          | none => none
          | some s =>
              match
                if s < t then
                  if s = 0 then none
                  else some [value / (t / s)]
                else
                  if t = 0 then none
                  else some (List.range' (value * (s / t)) (s / t))
              with
              | none => none
              | some entry =>
                  match reshapeDimCombos r rest with
                  | none => none
                  | some tail => some ((dim, entry) :: tail)

/-- Embedding of `get_reshape_dim_queries` (expansion_utils.py, lines
217-271).  The source's `dim_scaling` and `nodes_to_expand` parameters are
not read by the function body and are omitted.  Returns the list of source
dim queries, one per element of the cross product of the per-dimension
combinations. -/
def get_reshape_dim_queries (r : Reshape) (metadata : ExpansionMetadata) :
    Option (List (List (String × Nat))) :=
  match reshapeDimCombos r metadata.dim_query with
  | none => none
  | some combos =>
      some ((listProd (combos.map Prod.snd)).map
        (fun combination => (combos.map Prod.fst).zip combination))

/-- Source coordinates produced for dimension `d` when a one-dimensional
reshape is expanded at target coordinate `v`, flattened across the returned
source dim queries. -/
def sourceVals (r : Reshape) (d : String) (v : Nat) : List Nat :=
  match get_reshape_dim_queries r ⟨[(d, v)]⟩ with
  | none => []
  | some qs => qs.filterMap (fun q => alookup q d)

/-- C4 counterexample: with own width 8 and target width 2 (scale factor 4),
the four target coordinates 0,1,2,3 map to the sixteen source coordinates
0..15 — not to the four coordinates of `[0, 4)` — and under the opposite
reading (own width 2, target width 8) they all map to the single source
coordinate 0; in neither reading do the four target coordinates cover
`[0, 4)` exactly once each. -/
theorem C4_counterexample :
    ((List.range 4).flatMap (fun v => sourceVals ⟨[("M", 8)], [("M", 2)]⟩ "M" v)
        = [0, 1, 2, 3, 4, 5, 6, 7, 8, 9, 10, 11, 12, 13, 14, 15]) ∧
    ¬ List.Perm
        ((List.range 4).flatMap (fun v => sourceVals ⟨[("M", 8)], [("M", 2)]⟩ "M" v))
        [0, 1, 2, 3] ∧
    ((List.range 4).flatMap (fun v => sourceVals ⟨[("M", 2)], [("M", 8)]⟩ "M" v)
        = [0, 0, 0, 0]) ∧
    ¬ List.Perm
        ((List.range 4).flatMap (fun v => sourceVals ⟨[("M", 2)], [("M", 8)]⟩ "M" v))
        [0, 1, 2, 3] := by
  decide

/-- C4 amended: for a dimension with own vector width 8 and target width 2
(scale factor 4), each single target coordinate `v` of 0,1,2,3 maps to
exactly the four source coordinates `[4v, 4v+4)`; across the four target
coordinates the sixteen source coordinates `[0, 16)` are covered with each
appearing exactly once (no gaps, no overlaps), and in particular target
coordinate 0 alone maps to exactly the four source coordinates `[0, 4)`. -/
theorem C4_partition_amended :
    ((List.range 4).map (fun v => sourceVals ⟨[("M", 8)], [("M", 2)]⟩ "M" v)
        = [[0, 1, 2, 3], [4, 5, 6, 7], [8, 9, 10, 11], [12, 13, 14, 15]]) ∧
    ((List.range 4).flatMap (fun v => sourceVals ⟨[("M", 8)], [("M", 2)]⟩ "M" v)
        = List.range 16) := by
  decide

/-! ## IndexMapping (wave_types.py) -/

/-- Iterator symbol for position `i`, as `IndexMapping.iterator`. -/
def iterName (i : Nat) : String := "$index" ++ toString i

/-- Dynamic-value symbol for position `i`, as `IndexMapping.dynamic_val`. -/
def dynValName (i : Nat) : String := "$dynamic_val" ++ toString i

/-- Embedding of the `IndexMapping` data: iterator symbols with their
positions, the input and output coordinate mappings, the inferred iteration
shape, and the dynamic-value bookkeeping. -/
structure IndexMapping where
  iters : List (String × Nat)
  input_mapping : List (String × SymExpr)
  output_mapping : List (String × SymExpr)
  iteration_shape : List String
  dynamic_val_mappings : List (List (String × SymExpr))
  dynamic_val_indices : List (String × Nat)
deriving DecidableEq

/-- `iters.get(expr, None)`: the position of an expression that is exactly
one of the iterator symbols, nothing otherwise. -/
def exprAsIter (iters : List (String × Nat)) : SymExpr → Option Nat
  | .sym s => alookup iters s
  | _ => none

/-- One unification step of `IndexMapping.__init__`: record that iterator
`i` has size symbol `s`, failing on a conflicting earlier assignment (the
source's `Iterator conflict` assertion). -/
def assignIter (shape : List (Option String)) (i : Nat) (s : String) :
    Except String (List (Option String)) :=
  match shape.get? i with
  | some none => .ok (shape.set i (some s))
  | some (some s0) => if s0 = s then .ok shape else .error "Iterator conflict"
  | none => .ok shape

/-- The unification loop of `IndexMapping.__init__` over the combined
input/output coordinate pairs. -/
def buildIterShape (iters : List (String × Nat)) :
    List (String × SymExpr) → List (Option String) → Except String (List (Option String))
  | [], shape => .ok shape
  | (sname, expr) :: rest, shape =>
      match exprAsIter iters expr with
      | none => buildIterShape iters rest shape
      | some i =>
          match assignIter shape i sname with
          | .error e => .error e
          | .ok shape1 => buildIterShape iters rest shape1

/-- Embedding of `IndexMapping.__init__` (wave_types.py, lines 214-248):
allocate one iterator per position, unify iterator sizes across the input
and output mappings, fail on a conflict or an undetermined iterator, and
record the dynamic-value mappings with their synthesized symbols. -/
def mkIndexMapping (num_iterators : Nat) (inputs outputs : List (String × SymExpr))
    (dynamic_val_mappings : List (List (String × SymExpr))) :
    Except String IndexMapping :=
  match buildIterShape ((List.range num_iterators).map (fun i => (iterName i, i)))
      (inputs ++ outputs) (List.replicate num_iterators none) with
  | .error e => .error e
  | .ok shape =>
      if shape.all Option.isSome then
        .ok { iters := (List.range num_iterators).map (fun i => (iterName i, i))
              input_mapping := inputs
              output_mapping := outputs
              iteration_shape := shape.map (fun o => o.getD "")
              dynamic_val_mappings := dynamic_val_mappings
              dynamic_val_indices :=
                (List.range dynamic_val_mappings.length).map (fun i => (dynValName i, i)) }
      else .error "Cannot determine iteration domain"

/-- Sequential application of a substitution list, as sympy's `expr.subs`
with a list of pairs. -/
def applySubsList (e : SymExpr) (subs : List (String × SymExpr)) : SymExpr :=
  subs.foldl (fun acc p => subsE acc p.1 p.2) e

/-- Embedding of `IndexMapping.substitute` (wave_types.py, lines 258-265):
re-run construction on the substituted input and output mappings, passing
no dynamic-value mappings. -/
def IndexMapping.substitute (m : IndexMapping) (subs : List (String × SymExpr)) :
    Except String IndexMapping :=
  mkIndexMapping m.iters.length
    (m.input_mapping.map (fun p => (p.1, applySubsList p.2 subs)))
    (m.output_mapping.map (fun p => (p.1, applySubsList p.2 subs)))
    []

/-- Projection used in statements: the iteration shape of a successful
construction. -/
def shapeOfResult (r : Except String IndexMapping) : Option (List String) :=
  match r with
  | .ok m => some m.iteration_shape
  | .error _ => none

theorem mkIndexMapping_ok_fields (n : Nat) (i o : List (String × SymExpr))
    (d : List (List (String × SymExpr))) (m : IndexMapping)
    (h : mkIndexMapping n i o d = .ok m) :
    m.iters = (List.range n).map (fun j => (iterName j, j)) ∧
    m.input_mapping = i ∧ m.output_mapping = o ∧
    m.dynamic_val_mappings = d ∧
    m.dynamic_val_indices = (List.range d.length).map (fun j => (dynValName j, j)) := by
  unfold mkIndexMapping at h
  split at h
  · exact absurd h (by simp)
  · split at h
    · cases h
      exact ⟨rfl, rfl, rfl, rfl, rfl⟩
    · exact absurd h (by simp)

theorem assignIter_preserves (shape shape1 : List (Option String)) (i : Nat) (s : String)
    (h : assignIter shape i s = .ok shape1) (j : Nat) (s0 : String)
    (hj : shape.get? j = some (some s0)) : shape1.get? j = some (some s0) := by
  unfold assignIter at h
  split at h
  · rename_i hi
    cases h
    have hne : i ≠ j := by
      intro he
      rw [he, hj] at hi
      exact absurd hi (by simp)
    rw [List.get?_set_ne _ _ hne]
    exact hj
  · rename_i s1 hi
    split at h
    · cases h; exact hj
    · exact absurd h (by simp)
  · rename_i hi
    cases h
    exact hj

theorem assignIter_sets (shape shape1 : List (Option String)) (i : Nat) (s : String)
    (hlen : i < shape.length) (h : assignIter shape i s = .ok shape1) :
    shape1.get? i = some (some s) := by
  unfold assignIter at h
  split at h
  · cases h
    rw [List.get?_set_eq_of_lt _ hlen]
  · rename_i s1 hi
    split at h
    · rename_i he
      cases h
      rw [hi, he]
    · exact absurd h (by simp)
  · rename_i hi
    exact absurd (List.get?_eq_none.mp hi) (by omega)

theorem assignIter_length (shape shape1 : List (Option String)) (i : Nat) (s : String)
    (h : assignIter shape i s = .ok shape1) : shape1.length = shape.length := by
  unfold assignIter at h
  split at h
  · cases h
    exact List.length_set _ _ _
  · split at h
    · cases h; rfl
    · exact absurd h (by simp)
  · cases h
    rfl

theorem buildIterShape_preserves (iters : List (String × Nat))
    (pairs : List (String × SymExpr)) (shape shape1 : List (Option String))
    (h : buildIterShape iters pairs shape = .ok shape1) (j : Nat) (s0 : String)
    (hj : shape.get? j = some (some s0)) : shape1.get? j = some (some s0) := by
  induction pairs generalizing shape with
  | nil => unfold buildIterShape at h; cases h; exact hj
  | cons hd tl ih =>
      obtain ⟨sname, expr⟩ := hd
      unfold buildIterShape at h
      split at h
      · exact ih shape h hj
      · rename_i i hx
        split at h
        · exact absurd h (by simp)
        · rename_i shape2 ha
          exact ih shape2 h (assignIter_preserves shape shape2 i sname ha j s0 hj)

theorem buildIterShape_length (iters : List (String × Nat))
    (pairs : List (String × SymExpr)) (shape shape1 : List (Option String))
    (h : buildIterShape iters pairs shape = .ok shape1) : shape1.length = shape.length := by
  induction pairs generalizing shape with
  | nil => unfold buildIterShape at h; cases h; rfl
  | cons hd tl ih =>
      obtain ⟨sname, expr⟩ := hd
      unfold buildIterShape at h
      split at h
      · exact ih shape h
      · rename_i i hx
        split at h
        · exact absurd h (by simp)
        · rename_i shape2 ha
          rw [ih shape2 h, assignIter_length shape shape2 i sname ha]

theorem buildIterShape_mem (iters : List (String × Nat))
    (pairs : List (String × SymExpr)) (shape shape1 : List (Option String))
    (hbound : ∀ s j, alookup iters s = some j → j < shape.length)
    (h : buildIterShape iters pairs shape = .ok shape1) :
    ∀ p ∈ pairs, ∀ j, exprAsIter iters p.2 = some j →
      shape1.get? j = some (some p.1) := by
  induction pairs generalizing shape with
  | nil => intro p hp; exact absurd hp (List.not_mem_nil p)
  | cons hd tl ih =>
      obtain ⟨sname, expr⟩ := hd
      intro p hp j hj
      unfold buildIterShape at h
      have hbound2 : ∀ (shape2 : List (Option String)) (i : Nat),
          assignIter shape i sname = .ok shape2 →
          ∀ s j0, alookup iters s = some j0 → j0 < shape2.length := by
        intro shape2 i ha s j0 hs
        rw [assignIter_length shape shape2 i sname ha]
        exact hbound s j0 hs
      rcases List.mem_cons.mp hp with hph | hpt
      · subst hph
        simp only at hj
        split at h
        · rename_i hx
          rw [hx] at hj
          exact absurd hj (by simp)
        · rename_i i hx
          rw [hx] at hj
          have hij : i = j := by injection hj
          subst hij
          split at h
          · exact absurd h (by simp)
          · rename_i shape2 ha
            have hjlen : i < shape.length := by
              cases expr with
              | sym s => exact hbound s i hx
              | lit v => exact absurd hx (by simp [exprAsIter])
              | divE e k => exact absurd hx (by simp [exprAsIter])
            exact buildIterShape_preserves iters tl shape2 shape1 h i sname
              (assignIter_sets shape shape2 i sname hjlen ha)
      · split at h
        · exact ih shape hbound h p hpt j hj
        · rename_i i hx
          split at h
          · exact absurd h (by simp)
          · rename_i shape2 ha
            exact ih shape2 (hbound2 shape2 i ha) h p hpt j hj

theorem alookup_range_map_lt (n : Nat) (s : String) (j : Nat)
    (h : alookup ((List.range n).map (fun i => (iterName i, i))) s = some j) : j < n := by
  have main : ∀ (l : List Nat) (s0 : String) (j0 : Nat),
      alookup (l.map (fun i => (iterName i, i))) s0 = some j0 → j0 ∈ l := by
    intro l
    induction l with
    | nil => intro s0 j0 h0; exact absurd h0 (by simp [alookup])
    | cons hd tl ih =>
        intro s0 j0 h0
        simp only [List.map_cons, alookup] at h0
        by_cases he : iterName hd = s0
        · rw [if_pos he] at h0
          cases h0
          exact List.mem_cons_self _ _
        · rw [if_neg he] at h0
          exact List.mem_cons_of_mem _ (ih s0 j0 h0)
  exact List.mem_range.mp (main (List.range n) s j h)

/-- C3 counterexample: the construction the specification says must fail —
`num_iterators = 2`, `inputs = \x7bX: $index0\x7d`,
`outputs = \x7bX: $index1\x7d` — in fact succeeds, and infers the
iteration shape `(X, X)`: the two occurrences claim the same size symbol
for two different iterators, which the unification never rejects. -/
theorem C3_counterexample :
    shapeOfResult (mkIndexMapping 2 [("X", SymExpr.sym "$index0")]
        [("X", SymExpr.sym "$index1")] []) = some ["X", "X"] := by
  decide

/-- C3 amended: building with `num_iterators = 2` and the identity
mappings succeeds with iteration shape `(X, Y)`; building with
`inputs = \x7bX: $index0\x7d, outputs = \x7bX: $index1\x7d` also succeeds
(shape `(X, X)`); what fails is claiming two different size symbols for the
same iterator, e.g. `inputs = \x7bX: $index0\x7d, outputs = \x7bY: $index0\x7d`
(the `Iterator conflict` assertion); and in every successful construction
each iterator occurrence is consistently assigned its coordinate's size
symbol in the iteration shape. -/
theorem C3_index_mapping_amended :
    shapeOfResult (mkIndexMapping 2
        [("X", SymExpr.sym "$index0"), ("Y", SymExpr.sym "$index1")]
        [("X", SymExpr.sym "$index0"), ("Y", SymExpr.sym "$index1")] [])
      = some ["X", "Y"] ∧
    shapeOfResult (mkIndexMapping 2 [("X", SymExpr.sym "$index0")]
        [("X", SymExpr.sym "$index1")] []) = some ["X", "X"] ∧
    errOf (mkIndexMapping 1 [("X", SymExpr.sym "$index0")]
        [("Y", SymExpr.sym "$index0")] []) = some "Iterator conflict" ∧
    (∀ (n : Nat) (i o : List (String × SymExpr)) (d : List (List (String × SymExpr)))
        (m : IndexMapping), mkIndexMapping n i o d = .ok m →
        ∀ p ∈ i ++ o, ∀ j, exprAsIter m.iters p.2 = some j →
          m.iteration_shape.get? j = some p.1) := by
  refine ⟨by decide, by decide, by decide, ?_⟩
  intro n i o d m h p hp j hj
  have hfields := mkIndexMapping_ok_fields n i o d m h
  rw [hfields.1] at hj
  unfold mkIndexMapping at h
  split at h
  · exact absurd h (by simp)
  · rename_i shape hb
    split at h
    · have hbound : ∀ s j0,
          alookup ((List.range n).map (fun k => (iterName k, k))) s = some j0 →
          j0 < (List.replicate n (none : Option String)).length := by
        intro s j0 hs
        rw [List.length_replicate]
        exact alookup_range_map_lt n s j0 hs
      have hget := buildIterShape_mem _ (i ++ o) _ shape hbound hb p hp j hj
      cases h
      rw [List.get?_map, hget]
      rfl
    · exact absurd h (by simp)

/-- Witness for the amended C3: instantiating the consistency clause at the
identity construction, iterator 0 of the resulting mapping is assigned the
size symbol `X`. -/
theorem C3_index_mapping_witness :
    ({ iters := [("$index0", 0), ("$index1", 1)],
       input_mapping := [("X", SymExpr.sym "$index0"), ("Y", SymExpr.sym "$index1")],
       output_mapping := [("X", SymExpr.sym "$index0"), ("Y", SymExpr.sym "$index1")],
       iteration_shape := ["X", "Y"],
       dynamic_val_mappings := [], dynamic_val_indices := [] } :
        IndexMapping).iteration_shape.get? 0 = some "X" :=
  C3_index_mapping_amended.2.2.2 2
    [("X", SymExpr.sym "$index0"), ("Y", SymExpr.sym "$index1")]
    [("X", SymExpr.sym "$index0"), ("Y", SymExpr.sym "$index1")] [] _ rfl
    ("X", SymExpr.sym "$index0") (by decide) 0 (by decide)

/-- C10 counterexample: a well-formed `IndexMapping` with a non-empty
dynamic-value mapping for which `substitute` does not return a new mapping
at all: substituting the number 5 for `$index0` leaves iterator 0 without
an occurrence, so the re-run construction aborts with the iteration-domain
assertion. -/
theorem C10_counterexample :
    okOf (mkIndexMapping 2
        [("X", SymExpr.sym "$index0"), ("Y", SymExpr.sym "$index1")]
        [("X", SymExpr.sym "$index0"), ("Y", SymExpr.sym "$index1")]
        [[("A", SymExpr.sym "$dynamic_val0")]])
      = some { iters := [("$index0", 0), ("$index1", 1)],
               input_mapping := [("X", SymExpr.sym "$index0"), ("Y", SymExpr.sym "$index1")],
               output_mapping := [("X", SymExpr.sym "$index0"), ("Y", SymExpr.sym "$index1")],
               iteration_shape := ["X", "Y"],
               dynamic_val_mappings := [[("A", SymExpr.sym "$dynamic_val0")]],
               dynamic_val_indices := [("$dynamic_val0", 0)] } ∧
    errOf (IndexMapping.substitute
        { iters := [("$index0", 0), ("$index1", 1)],
          input_mapping := [("X", SymExpr.sym "$index0"), ("Y", SymExpr.sym "$index1")],
          output_mapping := [("X", SymExpr.sym "$index0"), ("Y", SymExpr.sym "$index1")],
          iteration_shape := ["X", "Y"],
          dynamic_val_mappings := [[("A", SymExpr.sym "$dynamic_val0")]],
          dynamic_val_indices := [("$dynamic_val0", 0)] }
        [("$index0", SymExpr.lit 5)])
      = some "Cannot determine iteration domain" := by
  constructor
  · decide
  · decide

/-- C10 amended: whenever `substitute` succeeds (the substituted mappings
still determine every iterator), the new mapping keeps the iterator count
and the input/output coordinate symbols with substituted expressions, and
its dynamic-value mappings are empty with zero dynamic values — even when
the original mapping carried dynamic values. -/
theorem C10_substitute_amended (m : IndexMapping) (subs : List (String × SymExpr))
    (m2 : IndexMapping) (h : IndexMapping.substitute m subs = .ok m2) :
    m2.iters.length = m.iters.length ∧
    m2.input_mapping = m.input_mapping.map (fun p => (p.1, applySubsList p.2 subs)) ∧
    m2.output_mapping = m.output_mapping.map (fun p => (p.1, applySubsList p.2 subs)) ∧
    m2.dynamic_val_mappings = [] ∧
    m2.dynamic_val_indices = [] := by
  unfold IndexMapping.substitute at h
  have hfields := mkIndexMapping_ok_fields _ _ _ _ _ h
  refine ⟨?_, hfields.2.1, hfields.2.2.1, hfields.2.2.2.1, ?_⟩
  · rw [hfields.1]
    simp
  · rw [hfields.2.2.2.2]
    simp

/-- Witness for the amended C10: substituting the empty list in a mapping
with one dynamic value succeeds and drops the dynamic value. -/
theorem C10_substitute_witness :
    ({ iters := [("$index0", 0), ("$index1", 1)],
       input_mapping := [("X", SymExpr.sym "$index0"), ("Y", SymExpr.sym "$index1")],
       output_mapping := [("X", SymExpr.sym "$index0"), ("Y", SymExpr.sym "$index1")],
       iteration_shape := ["X", "Y"],
       dynamic_val_mappings := [], dynamic_val_indices := [] } :
        IndexMapping).dynamic_val_mappings = [] ∧
    ({ iters := [("$index0", 0), ("$index1", 1)],
       input_mapping := [("X", SymExpr.sym "$index0"), ("Y", SymExpr.sym "$index1")],
       output_mapping := [("X", SymExpr.sym "$index0"), ("Y", SymExpr.sym "$index1")],
       iteration_shape := ["X", "Y"],
       dynamic_val_mappings := [], dynamic_val_indices := [] } :
        IndexMapping).dynamic_val_indices = [] :=
  have happ := C10_substitute_amended
    { iters := [("$index0", 0), ("$index1", 1)],
      input_mapping := [("X", SymExpr.sym "$index0"), ("Y", SymExpr.sym "$index1")],
      output_mapping := [("X", SymExpr.sym "$index0"), ("Y", SymExpr.sym "$index1")],
      iteration_shape := ["X", "Y"],
      dynamic_val_mappings := [[("A", SymExpr.sym "$dynamic_val0")]],
      dynamic_val_indices := [("$dynamic_val0", 0)] }
    []
    { iters := [("$index0", 0), ("$index1", 1)],
      input_mapping := [("X", SymExpr.sym "$index0"), ("Y", SymExpr.sym "$index1")],
      output_mapping := [("X", SymExpr.sym "$index0"), ("Y", SymExpr.sym "$index1")],
      iteration_shape := ["X", "Y"],
      dynamic_val_mappings := [], dynamic_val_indices := [] }
    rfl
  ⟨happ.2.2.2.1, happ.2.2.2.2⟩

/-! ## Memory and Register type declarations (wave_types.py) -/

/-- Element types (`DataType` instances from the dtype module). -/
inductive DType : Type
  | f16
  | f32
  | i32
deriving DecidableEq

/-- Address spaces (the `AddressSpace` enum of kernel_buffer.py). -/
inductive AddrSp : Type
  | REGISTER
  | GLOBAL_MEMORY
  | SHARED_MEMORY
deriving DecidableEq

/-- Buffer usage tags (`KernelBufferUsage`). -/
inductive KBUsage : Type
  | NONE
  | INPUT
  | OUTPUT
deriving DecidableEq

/-- A `MemoryLayout` argument: a distinct physical shape. -/
structure MemLayout where
  shape : List SymExpr
deriving DecidableEq

/-- An entry of an explicitly parenthesised shape tuple. -/
inductive ShapeArg : Type
  | intLit (n : Nat)
  | expr (e : SymExpr)
  | junk (s : String)
deriving DecidableEq

/-- One subscript argument of `Memory[...]` / `Register[...]`: a bare
integer, an index expression, a parenthesised shape tuple, a dtype, an
address space, a usage tag, a memory layout, or an arbitrary non-expression
object. -/
inductive MArg : Type
  | intLit (n : Nat)
  | expr (e : SymExpr)
  | tup (es : List ShapeArg)
  | dty (d : DType)
  | addr (a : AddrSp)
  | usg (u : KBUsage)
  | lay (l : MemLayout)
  | junk (s : String)
deriving DecidableEq

/-- Lift a tuple entry back into the argument universe, as Python's
`shape = shape[0]` does when unpacking the one-tuple form. -/
def shapeArgToMArg : ShapeArg → MArg
  | .intLit n => .intLit n
  | .expr e => .expr e
  | .junk s => .junk s

/-- Bare-integer promotion: `IndexExpr(s) if isinstance(s, int) else s`. -/
def promote : MArg → MArg
  | .intLit n => .expr (.lit n)
  | x => x

/-- `isinstance(s, IndexExpr)` for shape entries. -/
def isExprArg : MArg → Bool
  | .expr _ => true
  | _ => false

/-- `isinstance(x, IndexExpr) or isinstance(x, AddressSpace)` for the
address-space argument. -/
def isAddrArg : MArg → Bool
  | .expr _ => true
  | .addr _ => true
  | _ => false

/-- The immutable declarative type a successful declaration produces
(`KernelBufferMeta.new_subtype`). -/
structure KBType where
  name : String
  address_space : MArg
  symbolic_shape : List MArg
  dtype : DType
  physical_layout : Option MemLayout
  usage : KBUsage
deriving DecidableEq

/-- Pop of the optional trailing usage argument. -/
def popUsage (args : List MArg) : KBUsage × List MArg :=
  match args.getLast? with
  | some (.usg u) => (u, args.dropLast)
  | _ => (KBUsage.NONE, args)

/-- Pop of the optional trailing layout argument. -/
def popLayout (args : List MArg) : Option MemLayout × List MArg :=
  match args.getLast? with
  | some (.lay l) => (some l, args.dropLast)
  | _ => (none, args)

/-- Unpacking of the one-tuple shape form
(`len(shape) == 1 and isinstance(shape[0], tuple)`). -/
def unwrapShape : List MArg → List MArg
  | [MArg.tup es] => es.map shapeArgToMArg
  | args4 => args4

/-- Embedding of `Memory.__class_getitem__` (wave_types.py, lines 66-115):
pop an optional usage, an optional layout, the dtype and the address space
from the back, unpack a one-tuple shape, promote bare integers, and
validate the shape entries, the dtype and the address space, rejecting the
register address space. -/
def memory_class_getitem (args : List MArg) : Except String KBType :=
  if args.length < 3 then .error "Expected at least 3 arguments"
  else
    let pu := popUsage args
    let pl := popLayout pu.2
    match pl.2.getLast? with
    | none => .error "IndexError: pop from empty list"
    | some dtypeArg =>
      match pl.2.dropLast.getLast? with
      | none => .error "IndexError: pop from empty list"
      | some addrArg =>
        let shape1 := (unwrapShape pl.2.dropLast.dropLast).map promote
        if shape1.all isExprArg && shape1.length != 0 then
          match dtypeArg with
          | .dty d =>
              if isAddrArg addrArg then
                if addrArg = MArg.addr AddrSp.REGISTER then
                  .error "Memory does not support address space register, use Register instead"
                else
                  .ok { name := "Memory", address_space := addrArg,
                        symbolic_shape := shape1, dtype := d,
                        physical_layout := pl.1, usage := pu.1 }
              else .error "Expected addressSpace to be a AddressSpace"
          | _ => .error "Expected dtype to be a DataType"
        else .error "Expected shape to be a tuple of IndexExpr"

/-- Embedding of `Register.__class_getitem__` (wave_types.py, lines
134-154): the last argument is the dtype, everything before it is the
shape; bare integers are promoted, the dtype must be a `DataType`, and —
unlike `Memory` — the shape entries themselves are never validated. -/
def register_class_getitem (args : List MArg) : Except String KBType :=
  if args.length < 2 then .error "Expected at least 2 arguments"
  else
    match args.getLast? with
    | none => .error "IndexError: pop from empty list"
    | some dtypeArg =>
      let shape1 := args.dropLast.map promote
      match dtypeArg with
      | .dty d =>
          .ok { name := "Register", address_space := .addr AddrSp.REGISTER,
                symbolic_shape := shape1, dtype := d,
                physical_layout := none, usage := KBUsage.NONE }
      | _ => .error "Expected dtype to be a DataType"

/-- Shape entries the claim's promotion clause ranges over: bare integers
and index expressions. -/
def entryOk : MArg → Bool
  | .intLit _ => true
  | .expr _ => true
  | _ => false

/-- C8 counterexample: `Register` with a non-expression shape entry does
not fail — the declaration succeeds and the junk entry survives into
`symbolic_shape`, because `Register.__class_getitem__` never validates its
shape entries. -/
theorem C8_counterexample :
    okOf (register_class_getitem [.junk "notanexpr", .dty .f16]) =
      some { name := "Register", address_space := .addr AddrSp.REGISTER,
             symbolic_shape := [.junk "notanexpr"], dtype := .f16,
             physical_layout := none, usage := KBUsage.NONE } := by
  decide

theorem popUsage_dty (l : List MArg) (d : DType) :
    popUsage (l ++ [.dty d]) = (KBUsage.NONE, l ++ [.dty d]) := by
  unfold popUsage
  rw [List.getLast?_concat]

theorem popLayout_dty (l : List MArg) (d : DType) :
    popLayout (l ++ [.dty d]) = (none, l ++ [.dty d]) := by
  unfold popLayout
  rw [List.getLast?_concat]

theorem unwrapShape_of_entryOk (es : List MArg) (hentry : ∀ x ∈ es, entryOk x = true) :
    unwrapShape es = es := by
  cases es with
  | nil => rfl
  | cons h t =>
      cases t with
      | nil =>
          cases h with
          | tup es2 =>
              have h1 : entryOk (MArg.tup es2) = true := hentry (MArg.tup es2) (by simp)
              have h2 : entryOk (MArg.tup es2) = false := rfl
              rw [h1] at h2
              exact Bool.noConfusion h2
          | intLit n => rfl
          | expr e => rfl
          | dty d => rfl
          | addr a => rfl
          | usg u => rfl
          | lay l => rfl
          | junk s => rfl
      | cons h2 t2 => cases h <;> rfl

theorem promote_entryOk (x : MArg) (h : entryOk x = true) :
    isExprArg (promote x) = true := by
  cases x <;> simp_all [entryOk, promote, isExprArg]

/-- C8 amended: for `Memory`, bare integer entries are promoted and a valid
declaration succeeds with the promoted shape; zero shape entries, a
non-expression shape entry, a non-`DataType` dtype, an invalid address
space, and the register address space each fail with a `TypeError`-style
message.  For `Register`, bare integers are promoted and a non-`DataType`
dtype or a missing shape fails, but — unlike the claim — a non-expression
shape entry is accepted unchanged: `Register` never validates its shape
entries (there is also no address-space argument to validate). -/
theorem C8_type_declaration_amended :
    (∀ (es : List MArg) (a : AddrSp) (d : DType), es ≠ [] →
        (∀ x ∈ es, entryOk x = true) → a ≠ AddrSp.REGISTER →
        memory_class_getitem (es ++ [.addr a, .dty d]) =
          .ok { name := "Memory", address_space := .addr a,
                symbolic_shape := es.map promote, dtype := d,
                physical_layout := none, usage := KBUsage.NONE }) ∧
    (∀ (a : AddrSp) (d : DType),
        memory_class_getitem [.addr a, .dty d] =
          .error "Expected at least 3 arguments") ∧
    (∀ (a : AddrSp) (d : DType),
        memory_class_getitem [.tup [], .addr a, .dty d] =
          .error "Expected shape to be a tuple of IndexExpr") ∧
    (∀ (s : String) (a : AddrSp) (d : DType),
        memory_class_getitem [.junk s, .addr a, .dty d] =
          .error "Expected shape to be a tuple of IndexExpr") ∧
    (∀ (e : SymExpr) (a : AddrSp) (s : String),
        memory_class_getitem [.expr e, .addr a, .junk s] =
          .error "Expected dtype to be a DataType") ∧
    (∀ (e : SymExpr) (s : String) (d : DType),
        memory_class_getitem [.expr e, .junk s, .dty d] =
          .error "Expected addressSpace to be a AddressSpace") ∧
    (∀ (e : SymExpr) (d : DType),
        memory_class_getitem [.expr e, .addr AddrSp.REGISTER, .dty d] =
          .error "Memory does not support address space register, use Register instead") ∧
    (∀ (n : Nat) (d : DType),
        register_class_getitem [.intLit n, .dty d] =
          .ok { name := "Register", address_space := .addr AddrSp.REGISTER,
                symbolic_shape := [.expr (.lit n)], dtype := d,
                physical_layout := none, usage := KBUsage.NONE }) ∧
    (∀ (e : SymExpr) (s : String),
        register_class_getitem [.expr e, .junk s] =
          .error "Expected dtype to be a DataType") ∧
    (∀ (d : DType),
        register_class_getitem [.dty d] =
          .error "Expected at least 2 arguments") ∧
    (∀ (s : String) (d : DType),
        register_class_getitem [.junk s, .dty d] =
          .ok { name := "Register", address_space := .addr AddrSp.REGISTER,
                symbolic_shape := [.junk s], dtype := d,
                physical_layout := none, usage := KBUsage.NONE }) := by
  refine ⟨?_, fun a d => rfl, fun a d => rfl, fun s a d => rfl, fun e a s => rfl,
    fun e s d => rfl, fun e d => rfl, fun n d => rfl, fun e s => rfl,
    fun d => rfl, fun s d => rfl⟩
  intro es a d hne hentry hreg
  have hsplit : es ++ [MArg.addr a, MArg.dty d] = (es ++ [MArg.addr a]) ++ [MArg.dty d] := by
    simp
  rw [hsplit]
  unfold memory_class_getitem
  have hpos : 0 < es.length := List.length_pos.mpr hne
  have hlen : ¬ ((es ++ [MArg.addr a]) ++ [MArg.dty d]).length < 3 := by
    simp only [List.length_append, List.length_cons, List.length_nil]
    omega
  rw [if_neg hlen]
  simp only [popUsage_dty, popLayout_dty, List.getLast?_concat, List.dropLast_concat,
    unwrapShape_of_entryOk es hentry]
  have hall : ((es.map promote).all isExprArg && (es.map promote).length != 0) = true := by
    rw [Bool.and_eq_true]
    constructor
    · rw [List.all_eq_true]
      intro x hx
      rcases List.mem_map.mp hx with ⟨y, hy, hxy⟩
      rw [← hxy]
      exact promote_entryOk y (hentry y hy)
    · simp only [List.length_map, bne_iff_ne, ne_eq]
      omega
  rw [if_pos hall]
  simp only [isAddrArg]
  rw [if_pos trivial]
  rw [if_neg (fun hh : MArg.addr a = MArg.addr AddrSp.REGISTER => hreg (by injection hh))]

/-- Witness for the amended C8: a `Memory` declaration with a bare integer
and a symbolic entry succeeds, promoting the integer. -/
theorem C8_type_declaration_witness :
    memory_class_getitem [.intLit 4, .expr (.sym "M"),
        .addr AddrSp.GLOBAL_MEMORY, .dty .f32] =
      .ok { name := "Memory", address_space := .addr AddrSp.GLOBAL_MEMORY,
            symbolic_shape := [.expr (.lit 4), .expr (.sym "M")], dtype := .f32,
            physical_layout := none, usage := KBUsage.NONE } :=
  C8_type_declaration_amended.1 [.intLit 4, .expr (.sym "M")]
    AddrSp.GLOBAL_MEMORY .f32 (by decide) (by decide) (by decide)

/-! ## Expanded-name construction (`get_expanded_name`) -/

/-- Operation kinds `get_expanded_name` distinguishes: `Read`, `Write`, and
everything else. -/
inductive NKind : Type
  | read
  | write
  | otherOp
deriving DecidableEq

/-- The slice of a graph node read by `get_expanded_name`: its fx name, its
kind, and the address space of the storage it accesses
(`get_custom(node.memory).type.address_space`, meaningful for reads and
writes). -/
structure NamedNode where
  name : String
  kind : NKind
  memory_address_space : AddrSp
deriving DecidableEq

/-- Embedding of `get_expanded_name` (expansion_utils.py, lines 181-194):
start from the node name, append `_shared` for a read or write whose memory
lives in the shared address space (`SHARED_ADDRESS_SPACE`), then append one
`_<dim>:<value>` suffix per coordinate entry in order, abbreviating a
dimension symbol longer than 4 characters to its first 4 characters plus a
star. -/
def get_expanded_name (node : NamedNode) (dims : List (String × Nat)) : String :=
  let base := node.name
  let base :=
    if (node.kind = NKind.read ∨ node.kind = NKind.write) ∧
        node.memory_address_space = AddrSp.SHARED_MEMORY then
      base ++ "_shared"
    else base
  dims.foldl (fun acc p =>
    let key_str := if p.1.length > 4 then p.1.take 4 ++ "*" else p.1
    acc ++ "_" ++ key_str ++ ":" ++ toString p.2) base

/-- One coordinate suffix as the specification words it: `_<dim>:<value>`
with the dimension symbol abbreviated to its first 4 characters plus a
marker when longer than 4 characters. -/
def dimSuffixSpec (p : String × Nat) : String :=
  "_" ++ (if p.1.length > 4 then p.1.take 4 ++ "*" else p.1) ++ ":" ++ toString p.2

/-- Concatenation of a list of strings, in order. -/
def joinAll : List String → String
  | [] => ""
  | s :: rest => s ++ joinAll rest

/-- The clone name as the specification words it: the original name, then
the `_shared` tag exactly for shared-memory reads and writes, then the
coordinate suffixes in coordinate order. -/
def expanded_name_spec (node : NamedNode) (dims : List (String × Nat)) : String :=
  node.name ++
    (if (node.kind = NKind.read ∨ node.kind = NKind.write) ∧
        node.memory_address_space = AddrSp.SHARED_MEMORY then "_shared" else "") ++
    joinAll (dims.map dimSuffixSpec)

theorem foldl_name_suffixes (dims : List (String × Nat)) (pre : String) :
    dims.foldl (fun acc p =>
      let key_str := if p.1.length > 4 then p.1.take 4 ++ "*" else p.1
      acc ++ "_" ++ key_str ++ ":" ++ toString p.2) pre =
    pre ++ joinAll (dims.map dimSuffixSpec) := by
  induction dims generalizing pre with
  | nil => simp [joinAll, String.append_empty]
  | cons hd tl ih =>
      simp only [List.foldl_cons, List.map_cons, joinAll]
      rw [ih]
      simp only [dimSuffixSpec, String.append_assoc]

/-- C9: for every node and coordinate list, `get_expanded_name` returns the
original node name, then the `_shared` tag exactly when the node is a read
or write into shared memory, then one `_<dim>:<value>` suffix per
coordinate dimension in order, with symbols longer than 4 characters
abbreviated to their first 4 characters plus a marker. -/
theorem C9_expanded_name (node : NamedNode) (dims : List (String × Nat)) :
    get_expanded_name node dims = expanded_name_spec node dims := by
  unfold get_expanded_name expanded_name_spec
  rw [foldl_name_suffixes]
  by_cases h : (node.kind = NKind.read ∨ node.kind = NKind.write) ∧
      node.memory_address_space = AddrSp.SHARED_MEMORY
  · rw [if_pos h, if_pos h, String.append_assoc]
  · rw [if_neg h, if_neg h, String.append_empty]

/-! ## Dimension scaling (`get_dim_scaling`) -/

/-- Modelled from the spec: `ceildiv` (wave utils general_utils, not under
src) is ceiling division on the statically known integers; dividing by
zero is a `ZeroDivisionError`. -/
def ceildiv (a b : Nat) : Option Nat :=
  if b = 0 then none else some ((a + b - 1) / b)

/-- The constraint kinds `get_dim_scaling` distinguishes: the hardware
constraint carries the per-workgroup-dimension waves-per-block entries
(an entry is `none` when it is not statically known), workgroup and tiling
constraints carry a dimension and a tile-size expression (the workgroup
constraint also its workgroup dimension index), and every other constraint
kind is ignored by the resolver. -/
inductive Constraint : Type
  | hardware (waves_per_block : List (Option Nat))
  | workgroup (dim : String) (tile_size : SymExpr) (workgroup_dim : Nat)
  | tiling (dim : String) (tile_size : SymExpr)
  | otherC
deriving DecidableEq

/-- A node's type as `get_dim_scaling` consults it: either a value type
(`DataType`, which per the spec trivially yields an empty scaling map) or a
shaped type carrying the symbolic shape. -/
inductive NodeTp : Type
  | dataType
  | shaped (shape : List SymExpr)
deriving DecidableEq

/-- The slice of a `CustomOp` read by `get_dim_scaling`: its per-dimension
vector shapes (`none` when the node carries none), its type, its indexing
dimensions, and — for reduce ops — its reduction dimension. -/
structure WNode where
  vector_shapes : Option (List (String × Nat))
  tp : NodeTp
  indexing_dims : List String
  isReduce : Bool
  reduction_dim : String
deriving DecidableEq

/-- The symbolic shape of a node's type; modelled as empty for a value
type, for which the spec prescribes an empty scaling map. -/
def shapeOfTp : NodeTp → List SymExpr
  | .dataType => []
  | .shaped sh => sh

/-- The `dim_to_shape` dictionary: each shape expression keyed by its
inferred raw dimension. -/
def dimToShape (shape : List SymExpr) : List (String × SymExpr) :=
  shape.foldl (fun m se =>
    match infer_dim se with
    | some d0 => aupsert m d0 se
    | none => m) []

/-- The hardware constraints of a constraint list. -/
def hwOf (cs : List Constraint) : List (List (Option Nat)) :=
  cs.filterMap (fun c =>
    match c with
    | .hardware w => some w
    | _ => none)

/-- The dimension and tile-size expression of a workgroup or tiling
constraint; nothing for every other constraint kind. -/
def wtData : Constraint → Option (String × SymExpr)
  | .workgroup d ts _ => some (d, ts)
  | .tiling d ts => some (d, ts)
  | _ => none

/-- The wave count used for a constraint: the hardware constraint's
waves-per-block entry at the workgroup dimension for a workgroup
constraint, 1 for a tiling constraint. -/
def waveCountFor (wpb : List (Option Nat)) : Constraint → Option Nat
  | .workgroup _ _ i =>
      match wpb.get? i with
      | some o => o
      | none => none
  | .tiling _ _ => some 1
  | _ => none

/-- The effective statically resolved tile size for a constraint dimension:
normally the constraint's tile size, but when the node's declared shape
entry for the dimension is a derived expression the tile size is first
substituted into that expression (expansion_utils.py, lines 78-89). -/
def tileSizeFor (idxc : String → Option Nat) (d2s : List (String × SymExpr))
    (d : String) (ts : SymExpr) : Option Nat :=
  match alookup d2s d with
  | some se =>
      if se ≠ SymExpr.sym d then get_static_value idxc (subsE se d ts)
      else get_static_value idxc ts
  | none => get_static_value idxc ts

/-- One iteration of the constraint loop of `get_dim_scaling`
(expansion_utils.py, lines 75-116) on a single constraint: skip
non-workgroup/tiling constraints, dimensions without a vector shape and
zero vector sizes; fail when the tile size or wave count is not statically
known; otherwise record the ceiling-division factor (a zero wave count
makes the division itself fail). -/
def stepWT (wpb : List (Option Nat)) (vsh : List (String × Nat))
    (d2s : List (String × SymExpr)) (idxc : String → Option Nat)
    (acc : List (String × Nat)) (c : Constraint) : Except String (List (String × Nat)) :=
  match wtData c with
  | none => .ok acc
  | some (d, ts) =>
      match alookup vsh d with
      | none => .ok acc
      | some vs =>
          if vs = 0 then .ok acc
          else
            match tileSizeFor idxc d2s d ts, waveCountFor wpb c with
            | some t, some wc =>
                match ceildiv t (wc * vs) with
                | some f => .ok (aupsert acc d f)
                | none => .error "ZeroDivisionError"
            | _, _ =>
                .error "Tile size, wave count and vector size must be statically known"

/-- The constraint loop of `get_dim_scaling`, left to right. -/
def loopWT (wpb : List (Option Nat)) (vsh : List (String × Nat))
    (d2s : List (String × SymExpr)) (idxc : String → Option Nat) :
    List Constraint → List (String × Nat) → Except String (List (String × Nat))
  | [], acc => .ok acc
  | c :: rest, acc =>
      match stepWT wpb vsh d2s idxc acc c with
      | .error e => .error e
      | .ok acc2 => loopWT wpb vsh d2s idxc rest acc2

/-- One dimension of the unconstrained-dimension pass of `get_dim_scaling`
(expansion_utils.py, lines 121-131): an indexed dimension that is not yet
computed, is statically known, and has positive vector width gets the
factor `ceildiv(extent, width)`.  A dimension missing from the vector
shapes (a `KeyError` in the source) is skipped. -/
def phase2Step (idxc : String → Option Nat) (vsh : List (String × Nat))
    (m : List (String × Nat)) (d : String) : List (String × Nat) :=
  if alookup m d = none then
    match idxc d with
    | some ext =>
        match alookup vsh d with
        | some v =>
            if v > 0 then
              match ceildiv ext v with
              | some f => aupsert m d f
              | none => m
            else m
        | none => m
    | none => m
  else m

/-- The unconstrained-dimension pass over the node's indexing dimensions. -/
def phase2 (idxc : String → Option Nat) (vsh : List (String × Nat))
    (dims : List String) (acc : List (String × Nat)) : List (String × Nat) :=
  dims.foldl (phase2Step idxc vsh) acc

/-- The reduction-dimension clause of `get_dim_scaling`
(expansion_utils.py, lines 134-139): the reduction dimension, when not yet
computed and statically known, gets `ceildiv(extent, width)` — with no
check that the width is nonzero, so a zero width reaches the division. -/
def reduceStep (idxc : String → Option Nat) (vsh : List (String × Nat))
    (rdim : String) (acc : List (String × Nat)) : Except String (List (String × Nat)) :=
  if alookup acc rdim = none then
    match idxc rdim with
    | some ext =>
        match ceildiv ext ((alookup vsh rdim).getD 0) with
        | some f => .ok (aupsert acc rdim f)
        | none => .error "ZeroDivisionError"
    | none => .ok acc
  else .ok acc

/-- Embedding of `get_dim_scaling` (expansion_utils.py, lines 55-141):
return an empty map for a node without vector shapes; require exactly one
hardware constraint; run the constraint loop; return an empty map for a
value-typed node; then add the unconstrained indexed dimensions and, for a
reduce op, the reduction dimension. -/
def get_dim_scaling (cs : List Constraint) (node : WNode)
    (idxc : String → Option Nat) : Except String (List (String × Nat)) :=
  match node.vector_shapes with
  | none => .ok []
  | some vsh =>
      match hwOf cs with
      | [wpb] =>
          match loopWT wpb vsh (dimToShape (shapeOfTp node.tp)) idxc cs [] with
          | .error e => .error e
          | .ok acc =>
              match node.tp with
              | .dataType => .ok []
              | .shaped _ =>
                  if node.isReduce then
                    reduceStep idxc vsh node.reduction_dim
                      (phase2 idxc vsh node.indexing_dims acc)
                  else .ok (phase2 idxc vsh node.indexing_dims acc)
      | _ => .error "Exactly one hardware constraint must be provided"

theorem loopWT_append (wpb : List (Option Nat)) (vsh : List (String × Nat))
    (d2s : List (String × SymExpr)) (idxc : String → Option Nat)
    (l1 l2 : List Constraint) (acc : List (String × Nat)) :
    loopWT wpb vsh d2s idxc (l1 ++ l2) acc =
      match loopWT wpb vsh d2s idxc l1 acc with
      | .error e => .error e
      | .ok a => loopWT wpb vsh d2s idxc l2 a := by
  induction l1 generalizing acc with
  | nil => rfl
  | cons c rest ih =>
      cases hs : stepWT wpb vsh d2s idxc acc c with
      | error e => simp [loopWT, hs]
      | ok acc2 => simp [loopWT, hs, ih]

theorem stepWT_ok_lookup_ne (wpb : List (Option Nat)) (vsh : List (String × Nat))
    (d2s : List (String × SymExpr)) (idxc : String → Option Nat)
    (acc a2 : List (String × Nat)) (c : Constraint) (d : String)
    (h : stepWT wpb vsh d2s idxc acc c = .ok a2)
    (hd : ∀ p, wtData c = some p → p.1 ≠ d) :
    alookup a2 d = alookup acc d := by
  unfold stepWT at h
  split at h
  · cases h; rfl
  · rename_i d0 ts hwt
    split at h
    · cases h; rfl
    · rename_i vs hvs
      split at h
      · cases h; rfl
      · split at h
        · split at h
          · rename_i f hcd
            cases h
            exact alookup_aupsert_ne _ _ _ _ (hd (d0, ts) hwt)
          · exact absurd h (by simp)
        · exact absurd h (by simp)

theorem loopWT_no_dim (wpb : List (Option Nat)) (vsh : List (String × Nat))
    (d2s : List (String × SymExpr)) (idxc : String → Option Nat)
    (l : List Constraint) (acc a2 : List (String × Nat)) (d : String)
    (h : loopWT wpb vsh d2s idxc l acc = .ok a2)
    (hd : ∀ c ∈ l, ∀ p, wtData c = some p → p.1 ≠ d) :
    alookup a2 d = alookup acc d := by
  induction l generalizing acc with
  | nil => unfold loopWT at h; cases h; rfl
  | cons c rest ih =>
      unfold loopWT at h
      split at h
      · exact absurd h (by simp)
      · rename_i acc2 hs
        rw [ih acc2 h (fun c0 hc0 => hd c0 (List.mem_cons_of_mem _ hc0))]
        exact stepWT_ok_lookup_ne wpb vsh d2s idxc acc acc2 c d hs
          (hd c (List.mem_cons_self _ _))

theorem tileSizeFor_pure (idxc : String → Option Nat) (d2s : List (String × SymExpr))
    (d : String) (ts : SymExpr)
    (h : alookup d2s d = none ∨ alookup d2s d = some (SymExpr.sym d)) :
    tileSizeFor idxc d2s d ts = get_static_value idxc ts := by
  unfold tileSizeFor
  rcases h with h | h
  · rw [h]
  · rw [h]
    simp

theorem stepWT_assigns (wpb : List (Option Nat)) (vsh : List (String × Nat))
    (d2s : List (String × SymExpr)) (idxc : String → Option Nat)
    (acc : List (String × Nat)) (c : Constraint) (d : String) (ts : SymExpr)
    (tile wc vs : Nat)
    (hwt : wtData c = some (d, ts))
    (hpure : alookup d2s d = none ∨ alookup d2s d = some (SymExpr.sym d))
    (hts : get_static_value idxc ts = some tile)
    (hvs : alookup vsh d = some vs) (hvs0 : vs ≠ 0)
    (hwc : waveCountFor wpb c = some wc) (hwc0 : wc ≠ 0) :
    stepWT wpb vsh d2s idxc acc c =
      .ok (aupsert acc d ((tile + wc * vs - 1) / (wc * vs))) := by
  unfold stepWT
  rw [hwt]
  dsimp only
  rw [hvs]
  dsimp only
  rw [if_neg hvs0, tileSizeFor_pure idxc d2s d ts hpure, hts, hwc]
  dsimp only
  unfold ceildiv
  rw [if_neg (Nat.mul_ne_zero hwc0 hvs0)]

theorem stepWT_unresolvable (wpb : List (Option Nat)) (vsh : List (String × Nat))
    (d2s : List (String × SymExpr)) (idxc : String → Option Nat)
    (acc : List (String × Nat)) (c : Constraint) (d : String) (ts : SymExpr) (vs : Nat)
    (hwt : wtData c = some (d, ts))
    (hvs : alookup vsh d = some vs) (hvs0 : vs ≠ 0)
    (hbad : tileSizeFor idxc d2s d ts = none ∨ waveCountFor wpb c = none) :
    stepWT wpb vsh d2s idxc acc c =
      .error "Tile size, wave count and vector size must be statically known" := by
  unfold stepWT
  rw [hwt]
  dsimp only
  rw [hvs]
  dsimp only
  rw [if_neg hvs0]
  rcases hbad with hb | hb
  · rw [hb]
  · rw [hb]
    cases ht : tileSizeFor idxc d2s d ts <;> rfl

theorem phase2Step_char (idxc : String → Option Nat) (vsh : List (String × Nat))
    (m : List (String × Nat)) (d0 : String) :
    phase2Step idxc vsh m d0 = m ∨
      (alookup m d0 = none ∧ ∃ f, phase2Step idxc vsh m d0 = aupsert m d0 f) := by
  unfold phase2Step
  split
  · rename_i h0
    split
    · split
      · split
        · split
          · rename_i f hc
            exact Or.inr ⟨h0, f, rfl⟩
          · exact Or.inl rfl
        · exact Or.inl rfl
      · exact Or.inl rfl
    · exact Or.inl rfl
  · exact Or.inl rfl

theorem phase2Step_preserves_computed (idxc : String → Option Nat)
    (vsh : List (String × Nat)) (m : List (String × Nat)) (d0 d : String) (v : Nat)
    (h : alookup m d = some v) :
    alookup (phase2Step idxc vsh m d0) d = some v := by
  rcases phase2Step_char idxc vsh m d0 with hc | ⟨h0, f, hc⟩
  · rw [hc]; exact h
  · rw [hc]
    have hne : d0 ≠ d := by
      intro he
      rw [he, h] at h0
      exact Option.noConfusion h0
    rw [alookup_aupsert_ne _ _ _ _ hne]
    exact h

theorem phase2_preserves_computed (idxc : String → Option Nat)
    (vsh : List (String × Nat)) (dims : List String) (acc : List (String × Nat))
    (d : String) (v : Nat) (h : alookup acc d = some v) :
    alookup (phase2 idxc vsh dims acc) d = some v := by
  induction dims generalizing acc with
  | nil => exact h
  | cons d0 rest ih =>
      exact ih (phase2Step idxc vsh acc d0)
        (phase2Step_preserves_computed idxc vsh acc d0 d v h)

theorem reduceStep_preserves_computed (idxc : String → Option Nat)
    (vsh : List (String × Nat)) (rdim : String) (acc m2 : List (String × Nat))
    (d : String) (v : Nat) (h : alookup acc d = some v)
    (hr : reduceStep idxc vsh rdim acc = .ok m2) :
    alookup m2 d = some v := by
  unfold reduceStep at hr
  by_cases h0 : alookup acc rdim = none
  · rw [if_pos h0] at hr
    have hne : rdim ≠ d := by
      intro he
      rw [he, h] at h0
      exact Option.noConfusion h0
    cases hi : idxc rdim with
    | none => rw [hi] at hr; cases hr; exact h
    | some ext =>
        rw [hi] at hr
        dsimp only at hr
        split at hr
        · rename_i f hc
          cases hr
          rw [alookup_aupsert_ne _ _ _ _ hne]
          exact h
        · exact absurd hr (by simp)
  · rw [if_neg h0] at hr
    cases hr
    exact h

/-- C1 counterexample: (a) with two tiling constraints on the same
dimension M (tile sizes 8 and 16, vector size 2), the first constraint's
claimed factor ceil(8/2) = 4 is not assigned — the map holds the last
constraint's factor 8; (b) with a derived shape entry `K/2` and tile size
8, the claimed factor ceil(8/1) = 8 is not assigned — the substituted tile
size 4 gives factor 4. -/
theorem C1_counterexample :
    (okOf (get_dim_scaling
        [Constraint.hardware [some 1], Constraint.tiling "M" (SymExpr.lit 8),
         Constraint.tiling "M" (SymExpr.lit 16)]
        { vector_shapes := some [("M", 2)], tp := NodeTp.shaped [SymExpr.sym "M"],
          indexing_dims := ["M"], isReduce := false, reduction_dim := "K" }
        (fun _ => none)) = some [("M", 8)] ∧
      (8 + 1 * 2 - 1) / (1 * 2) = 4 ∧ (4 : Nat) ≠ 8) ∧
    (okOf (get_dim_scaling
        [Constraint.hardware [some 1], Constraint.tiling "K" (SymExpr.lit 8)]
        { vector_shapes := some [("K", 1)],
          tp := NodeTp.shaped [SymExpr.divE (SymExpr.sym "K") 2],
          indexing_dims := [], isReduce := false, reduction_dim := "X" }
        (fun _ => none)) = some [("K", 4)] ∧
      (8 + 1 * 1 - 1) / (1 * 1) = 8 ∧ (8 : Nat) ≠ 4) := by
  decide

/-- C1 amended: for an operation with declared vector shapes and a shaped
(non-value) type, and a constraint set with exactly one hardware constraint
on which `get_dim_scaling` succeeds, every workgroup or tiling constraint
that is the last workgroup/tiling constraint on its dimension, whose
dimension has a pure (underived or absent) shape entry and appears in the
vector shapes, with statically known tile size, wave count and vector size
all positive, has its dimension assigned the factor
`ceil(tile_size / (wave_count * vector_size))`, which is at least 1. -/
theorem C1_scaling_amended
    (cs pre post : List Constraint) (c : Constraint) (node : WNode)
    (idxc : String → Option Nat) (vsh : List (String × Nat)) (sh : List SymExpr)
    (wpb : List (Option Nat)) (d : String) (tse : SymExpr)
    (tile wc vs : Nat) (m : List (String × Nat))
    (h1 : node.vector_shapes = some vsh)
    (h2 : node.tp = .shaped sh)
    (h3 : hwOf cs = [wpb])
    (h4 : cs = pre ++ c :: post)
    (h5 : wtData c = some (d, tse))
    (h6 : waveCountFor wpb c = some wc)
    (h7 : ∀ c0 ∈ post, ∀ p, wtData c0 = some p → p.1 ≠ d)
    (h8 : alookup (dimToShape sh) d = none ∨
          alookup (dimToShape sh) d = some (SymExpr.sym d))
    (h9 : get_static_value idxc tse = some tile)
    (h10 : alookup vsh d = some vs)
    (h11 : 0 < tile) (h12 : 0 < wc) (h13 : 0 < vs)
    (h14 : get_dim_scaling cs node idxc = .ok m) :
    alookup m d = some ((tile + wc * vs - 1) / (wc * vs)) ∧
    1 ≤ (tile + wc * vs - 1) / (wc * vs) := by
  have hk : 0 < wc * vs := Nat.mul_pos h12 h13
  have hf : 1 ≤ (tile + wc * vs - 1) / (wc * vs) := by
    rw [Nat.le_div_iff_mul_le hk]
    omega
  refine ⟨?_, hf⟩
  unfold get_dim_scaling at h14
  rw [h1] at h14
  dsimp only at h14
  rw [h3] at h14
  dsimp only at h14
  rw [h2] at h14
  dsimp only [shapeOfTp] at h14
  rw [h4, loopWT_append] at h14
  cases hpre : loopWT wpb vsh (dimToShape sh) idxc pre [] with
  | error e => rw [hpre] at h14; simp at h14
  | ok a1 =>
      rw [hpre] at h14
      dsimp only at h14
      simp only [loopWT] at h14
      rw [stepWT_assigns wpb vsh (dimToShape sh) idxc a1 c d tse tile wc vs
        h5 h8 h9 h10 (by omega) h6 (by omega)] at h14
      dsimp only at h14
      cases hpost : loopWT wpb vsh (dimToShape sh) idxc post
          (aupsert a1 d ((tile + wc * vs - 1) / (wc * vs))) with
      | error e => rw [hpost] at h14; simp at h14
      | ok a3 =>
          rw [hpost] at h14
          dsimp only at h14
          have ha3 : alookup a3 d = some ((tile + wc * vs - 1) / (wc * vs)) := by
            rw [loopWT_no_dim wpb vsh (dimToShape sh) idxc post _ a3 d hpost h7]
            exact alookup_aupsert_self _ _ _
          have hacc2 : alookup (phase2 idxc vsh node.indexing_dims a3) d =
              some ((tile + wc * vs - 1) / (wc * vs)) :=
            phase2_preserves_computed idxc vsh node.indexing_dims a3 d _ ha3
          cases hred : node.isReduce with
          | true =>
              rw [hred, if_pos rfl] at h14
              exact reduceStep_preserves_computed idxc vsh node.reduction_dim
                (phase2 idxc vsh node.indexing_dims a3) m d _ hacc2 h14
          | false =>
              rw [hred, if_neg (by simp)] at h14
              cases h14
              exact hacc2

/-- Witness for the amended C1: one hardware constraint with 2 waves per
block, one workgroup constraint on M with tile size 16 and vector size 2;
the resulting factor is ceil(16/4) = 4 and is at least 1. -/
theorem C1_scaling_witness :
    alookup [("M", 4)] "M" = some ((16 + 2 * 2 - 1) / (2 * 2)) ∧
    1 ≤ (16 + 2 * 2 - 1) / (2 * 2) :=
  C1_scaling_amended
    [Constraint.hardware [some 2], Constraint.workgroup "M" (SymExpr.lit 16) 0]
    [Constraint.hardware [some 2]] []
    (Constraint.workgroup "M" (SymExpr.lit 16) 0)
    { vector_shapes := some [("M", 2)], tp := NodeTp.shaped [SymExpr.sym "M"],
      indexing_dims := [], isReduce := false, reduction_dim := "K" }
    (fun _ => none) [("M", 2)] [SymExpr.sym "M"] [some 2] "M" (SymExpr.lit 16)
    16 2 2 [("M", 4)]
    rfl rfl rfl rfl rfl rfl (by simp) (Or.inr rfl) rfl rfl
    (by decide) (by decide) (by decide) rfl

/-- C6 counterexample: for an operation without declared vector shapes,
`get_dim_scaling` does not raise on a constraint set with zero hardware
constraints — it returns the empty map before the check. -/
theorem C6_counterexample :
    okOf (get_dim_scaling []
        { vector_shapes := none, tp := NodeTp.shaped [],
          indexing_dims := [], isReduce := false, reduction_dim := "K" }
        (fun _ => none)) = some [] ∧
    (hwOf []).length ≠ 1 := by
  decide

/-- C6 amended: for an operation WITH declared vector shapes,
`get_dim_scaling` raises when the constraint set does not contain exactly
one hardware constraint; it raises when a reached workgroup/tiling
constraint whose dimension is in the vector shapes with nonzero width has
an unresolvable tile size or wave count; and non-divisibility of the tile
size by wave count times vector size is not fatal — the call still
succeeds with the rounded-up factor (shown at tile 10, wave count 2,
vector size 3, factor ceil(10/6) = 2). -/
theorem C6_error_handling_amended :
    (∀ (cs : List Constraint) (node : WNode) (idxc : String → Option Nat)
        (vsh : List (String × Nat)), node.vector_shapes = some vsh →
        (hwOf cs).length ≠ 1 →
        get_dim_scaling cs node idxc =
          .error "Exactly one hardware constraint must be provided") ∧
    (∀ (cs pre post : List Constraint) (c : Constraint) (node : WNode)
        (idxc : String → Option Nat) (vsh : List (String × Nat))
        (sh : List SymExpr) (wpb : List (Option Nat)) (acc : List (String × Nat))
        (d : String) (tse : SymExpr) (vs : Nat),
        node.vector_shapes = some vsh → node.tp = .shaped sh →
        hwOf cs = [wpb] → cs = pre ++ c :: post →
        wtData c = some (d, tse) →
        alookup vsh d = some vs → vs ≠ 0 →
        loopWT wpb vsh (dimToShape sh) idxc pre [] = .ok acc →
        (tileSizeFor idxc (dimToShape sh) d tse = none ∨
          waveCountFor wpb c = none) →
        get_dim_scaling cs node idxc =
          .error "Tile size, wave count and vector size must be statically known") ∧
    (okOf (get_dim_scaling
        [Constraint.hardware [some 2], Constraint.workgroup "M" (SymExpr.lit 10) 0]
        { vector_shapes := some [("M", 3)], tp := NodeTp.shaped [SymExpr.sym "M"],
          indexing_dims := [], isReduce := false, reduction_dim := "K" }
        (fun _ => none)) = some [("M", 2)] ∧ ¬ (2 * 3 ∣ 10)) := by
  refine ⟨?_, ?_, by decide⟩
  · intro cs node idxc vsh h1 hn
    unfold get_dim_scaling
    rw [h1]
    dsimp only
    cases hw : hwOf cs with
    | nil => rfl
    | cons w rest =>
        cases rest with
        | nil => exact absurd (by rw [hw]; rfl : (hwOf cs).length = 1) hn
        | cons w2 r2 => rfl
  · intro cs pre post c node idxc vsh sh wpb acc d tse vs h1 h2 h3 h4 h5 h6 h7 hpre hbad
    unfold get_dim_scaling
    rw [h1]
    dsimp only
    rw [h3]
    dsimp only
    rw [h2]
    dsimp only [shapeOfTp]
    rw [h4, loopWT_append, hpre]
    dsimp only
    simp only [loopWT]
    rw [stepWT_unresolvable wpb vsh (dimToShape sh) idxc acc c d tse vs h5 h6 h7 hbad]

/-- Witness for the amended C6: with declared vector shapes and an empty
constraint set (zero hardware constraints) the call fails with the
configuration error. -/
theorem C6_error_handling_witness :
    get_dim_scaling []
        { vector_shapes := some [("M", 2)], tp := NodeTp.shaped [],
          indexing_dims := [], isReduce := false, reduction_dim := "K" }
        (fun _ => none) =
      .error "Exactly one hardware constraint must be provided" :=
  C6_error_handling_amended.1 []
    { vector_shapes := some [("M", 2)], tp := NodeTp.shaped [],
      indexing_dims := [], isReduce := false, reduction_dim := "K" }
    (fun _ => none) [("M", 2)] rfl (by decide)

/-! ## Dead-code cleanup passes (`remove_original_nodes`,
`remove_unused_registers`, `remove_unused_iter_args`)

Modelled from the spec: the fx graph substrate (node erasure, consumer
counts, `get_inputs`, `trace.walk`) is not under src.  A graph is a list of
nodes indexed by position; a node carries its kind, its operand indices and
its erased flag; a consumer is a non-erased node listing the target among
its operands; erasing sets the flag.  The cleanup passes themselves are
embedded from expansion_utils.py, lines 274-307. -/

/-- Node kinds the cleanup passes distinguish: `NewRegister`, `IterArg`,
and everything else. -/
inductive GKind : Type
  | register
  | iterArg
  | otherK
deriving DecidableEq

/-- A graph node: kind, operand indices, erased flag. -/
structure GNode where
  kind : GKind
  inputs : List Nat
  erased : Bool
deriving DecidableEq

/-- A graph is its node list; a node's id is its position. -/
abbrev Graph := List GNode

/-- Whether node `i` is erased (an id outside the graph counts as erased). -/
def isErased (g : Graph) (i : Nat) : Bool :=
  match g.get? i with
  | some n => n.erased
  | none => true

/-- The operands of node `i` (`get_inputs`). -/
def inputsOf (g : Graph) (i : Nat) : List Nat :=
  match g.get? i with
  | some n => n.inputs
  | none => []

/-- The kind of node `i`. -/
def kindAt (g : Graph) (i : Nat) : Option GKind :=
  (g.get? i).map GNode.kind

/-- The consumers of node `i`: the non-erased nodes listing `i` among their
operands (`custom.users`). -/
def usersOf (g : Graph) (i : Nat) : List Nat :=
  (List.range g.length).filter (fun j => !(isErased g j) && (inputsOf g j).contains i)

/-- Erase node `i` (`custom.erase` / `graph.erase_node`): set its flag. -/
def eraseAt (g : Graph) (i : Nat) : Graph :=
  match g.get? i with
  | some n => g.set i { n with erased := true }
  | none => g

/-- Embedding of `remove_original_nodes` (expansion_utils.py, lines
274-287): pop the queue front; skip a node already erased (without
touching its operands); otherwise append its operands to the queue and
erase it when it has no consumers.  The source's while loop terminates on
dataflow DAGs; the embedding bounds the iteration count by explicit
fuel. -/
def remove_original_nodes (fuel : Nat) (g : Graph) (queue : List Nat) : Graph :=
  match fuel, queue with
  | _, [] => g
  | 0, _ :: _ => g
  | fuel + 1, n :: rest =>
      if isErased g n then remove_original_nodes fuel g rest
      else
        if usersOf g n = [] then
          remove_original_nodes fuel (eraseAt g n) (rest ++ inputsOf g n)
        else
          remove_original_nodes fuel g (rest ++ inputsOf g n)

/-- `trace.walk` filtered to the live nodes of one kind. -/
def liveOfKind (g : Graph) (k : GKind) : List Nat :=
  (List.range g.length).filter (fun i => decide (kindAt g i = some k) && !(isErased g i))

/-- The shared body of `remove_unused_registers` and
`remove_unused_iter_args`: erase each listed node that has no consumers at
the time it is visited. -/
def eraseDead (g : Graph) (l : List Nat) : Graph :=
  l.foldl (fun h i => if usersOf h i = [] then eraseAt h i else h) g

/-- Embedding of `remove_unused_registers` (expansion_utils.py, lines
290-296). -/
def remove_unused_registers (g : Graph) : Graph :=
  eraseDead g (liveOfKind g .register)

/-- Embedding of `remove_unused_iter_args` (expansion_utils.py, lines
299-307). -/
def remove_unused_iter_args (g : Graph) : Graph :=
  eraseDead g (liveOfKind g .iterArg)

theorem length_eraseAt (g : Graph) (j : Nat) : (eraseAt g j).length = g.length := by
  unfold eraseAt
  split
  · exact List.length_set _ _ _
  · rfl

theorem get?_eraseAt (g : Graph) (j k : Nat) :
    (eraseAt g j).get? k =
      if k = j then (g.get? k).map (fun n => { n with erased := true })
      else g.get? k := by
  unfold eraseAt
  cases hj : g.get? j with
  | none =>
      by_cases h : k = j
      · subst h
        rw [if_pos rfl, hj]
        rfl
      · rw [if_neg h]
  | some n =>
      by_cases h : k = j
      · subst h
        have hlt : k < g.length := by
          by_contra hge
          rw [List.get?_eq_none.mpr (by omega)] at hj
          exact Option.noConfusion hj
        rw [if_pos rfl, List.get?_set_eq_of_lt _ hlt, hj]
        rfl
      · rw [if_neg h, List.get?_set_ne _ _ (fun he => h he.symm)]

theorem inputsOf_eraseAt (g : Graph) (j k : Nat) :
    inputsOf (eraseAt g j) k = inputsOf g k := by
  unfold inputsOf
  rw [get?_eraseAt]
  by_cases h : k = j
  · rw [if_pos h]
    cases g.get? k <;> rfl
  · rw [if_neg h]

theorem kindAt_eraseAt (g : Graph) (j k : Nat) :
    kindAt (eraseAt g j) k = kindAt g k := by
  unfold kindAt
  rw [get?_eraseAt]
  by_cases h : k = j
  · rw [if_pos h]
    cases g.get? k <;> rfl
  · rw [if_neg h]

theorem isErased_eraseAt_self (g : Graph) (j : Nat) :
    isErased (eraseAt g j) j = true := by
  unfold isErased
  rw [get?_eraseAt, if_pos rfl]
  cases g.get? j <;> rfl

theorem isErased_eraseAt_ne (g : Graph) (j k : Nat) (h : k ≠ j) :
    isErased (eraseAt g j) k = isErased g k := by
  unfold isErased
  rw [get?_eraseAt, if_neg h]

theorem isErased_eraseAt_mono (g : Graph) (j k : Nat) (h : isErased g k = true) :
    isErased (eraseAt g j) k = true := by
  by_cases hkj : k = j
  · subst hkj
    exact isErased_eraseAt_self g k
  · rw [isErased_eraseAt_ne g j k hkj]
    exact h

theorem isErased_eraseAt_rev (g : Graph) (j k : Nat)
    (h : isErased (eraseAt g j) k = true) : isErased g k = true ∨ k = j := by
  by_cases hkj : k = j
  · exact Or.inr hkj
  · rw [isErased_eraseAt_ne g j k hkj] at h
    exact Or.inl h

theorem usersOf_eraseAt_empty_inputs (g : Graph) (j : Nat)
    (h : inputsOf g j = []) (i : Nat) :
    usersOf (eraseAt g j) i = usersOf g i := by
  unfold usersOf
  rw [length_eraseAt]
  apply List.filter_congr
  intro x hx
  by_cases hxj : x = j
  · subst hxj
    rw [inputsOf_eraseAt, h]
    simp
  · rw [inputsOf_eraseAt, isErased_eraseAt_ne _ _ _ hxj]

theorem usersOf_empty_eraseAt (g : Graph) (i j : Nat) (h : usersOf g i = []) :
    usersOf (eraseAt g j) i = [] := by
  unfold usersOf at h ⊢
  rw [length_eraseAt]
  rw [List.filter_eq_nil] at h ⊢
  intro x hx
  by_cases hxj : x = j
  · subst hxj
    rw [isErased_eraseAt_self]
    simp
  · rw [inputsOf_eraseAt, isErased_eraseAt_ne _ _ _ hxj]
    exact h x hx

theorem ron_inputs (fuel : Nat) : ∀ (g : Graph) (q : List Nat) (x : Nat),
    inputsOf (remove_original_nodes fuel g q) x = inputsOf g x := by
  induction fuel with
  | zero => intro g q x; cases q <;> rfl
  | succ f ih =>
      intro g q x
      cases q with
      | nil => rfl
      | cons n rest =>
          unfold remove_original_nodes
          by_cases h1 : isErased g n = true
          · rw [if_pos h1]
            exact ih g rest x
          · rw [if_neg h1]
            by_cases h2 : usersOf g n = []
            · rw [if_pos h2, ih, inputsOf_eraseAt]
            · rw [if_neg h2, ih]

theorem ron_erased_mono (fuel : Nat) : ∀ (g : Graph) (q : List Nat) (i : Nat),
    isErased g i = true → isErased (remove_original_nodes fuel g q) i = true := by
  induction fuel with
  | zero => intro g q i h; cases q <;> exact h
  | succ f ih =>
      intro g q i h
      cases q with
      | nil => exact h
      | cons n rest =>
          unfold remove_original_nodes
          by_cases h1 : isErased g n = true
          · rw [if_pos h1]
            exact ih g rest i h
          · rw [if_neg h1]
            by_cases h2 : usersOf g n = []
            · rw [if_pos h2]
              exact ih _ _ i (isErased_eraseAt_mono g n i h)
            · rw [if_neg h2]
              exact ih _ _ i h

theorem ron_users_empty (fuel : Nat) : ∀ (g : Graph) (q : List Nat) (i : Nat),
    usersOf g i = [] → usersOf (remove_original_nodes fuel g q) i = [] := by
  induction fuel with
  | zero => intro g q i h; cases q <;> exact h
  | succ f ih =>
      intro g q i h
      cases q with
      | nil => exact h
      | cons n rest =>
          unfold remove_original_nodes
          by_cases h1 : isErased g n = true
          · rw [if_pos h1]
            exact ih g rest i h
          · rw [if_neg h1]
            by_cases h2 : usersOf g n = []
            · rw [if_pos h2]
              exact ih _ _ i (usersOf_empty_eraseAt g i n h)
            · rw [if_neg h2]
              exact ih _ _ i h

theorem ron_only_dead (fuel : Nat) : ∀ (g : Graph) (q : List Nat) (i : Nat),
    isErased (remove_original_nodes fuel g q) i = true →
    isErased g i = true ∨ usersOf (remove_original_nodes fuel g q) i = [] := by
  induction fuel with
  | zero => intro g q i h; cases q <;> exact Or.inl h
  | succ f ih =>
      intro g q i h
      cases q with
      | nil => exact Or.inl h
      | cons n rest =>
          unfold remove_original_nodes at h ⊢
          by_cases h1 : isErased g n = true
          · rw [if_pos h1] at h ⊢
            exact ih g rest i h
          · rw [if_neg h1] at h ⊢
            by_cases h2 : usersOf g n = []
            · rw [if_pos h2] at h ⊢
              rcases ih _ _ i h with he | hu
              · rcases isErased_eraseAt_rev g n i he with he2 | heq
                · exact Or.inl he2
                · subst heq
                  exact Or.inr (ron_users_empty f _ _ _ (usersOf_empty_eraseAt _ _ _ h2))
              · exact Or.inr hu
            · rw [if_neg h2] at h ⊢
              exact ih _ _ i h

theorem eraseDead_cons (g : Graph) (i : Nat) (rest : List Nat) :
    eraseDead g (i :: rest) =
      eraseDead (if usersOf g i = [] then eraseAt g i else g) rest := rfl

theorem eraseDead_inputs (l : List Nat) : ∀ (g : Graph) (x : Nat),
    inputsOf (eraseDead g l) x = inputsOf g x := by
  induction l with
  | nil => intro g x; rfl
  | cons i rest ih =>
      intro g x
      rw [eraseDead_cons]
      by_cases h : usersOf g i = []
      · rw [if_pos h, ih, inputsOf_eraseAt]
      · rw [if_neg h, ih]

theorem eraseDead_kind (l : List Nat) : ∀ (g : Graph) (x : Nat),
    kindAt (eraseDead g l) x = kindAt g x := by
  induction l with
  | nil => intro g x; rfl
  | cons i rest ih =>
      intro g x
      rw [eraseDead_cons]
      by_cases h : usersOf g i = []
      · rw [if_pos h, ih, kindAt_eraseAt]
      · rw [if_neg h, ih]

theorem eraseDead_erased_mono (l : List Nat) : ∀ (g : Graph) (i : Nat),
    isErased g i = true → isErased (eraseDead g l) i = true := by
  induction l with
  | nil => intro g i h; exact h
  | cons i0 rest ih =>
      intro g i h
      rw [eraseDead_cons]
      by_cases h0 : usersOf g i0 = []
      · rw [if_pos h0]
        exact ih _ i (isErased_eraseAt_mono g i0 i h)
      · rw [if_neg h0]
        exact ih g i h

theorem eraseDead_users (l : List Nat) : ∀ (g : Graph),
    (∀ i ∈ l, inputsOf g i = []) → ∀ x, usersOf (eraseDead g l) x = usersOf g x := by
  induction l with
  | nil => intro g _ x; rfl
  | cons i rest ih =>
      intro g hinp x
      rw [eraseDead_cons]
      by_cases h : usersOf g i = []
      · rw [if_pos h]
        have hrest : ∀ i2 ∈ rest, inputsOf (eraseAt g i) i2 = [] := by
          intro i2 hi2
          rw [inputsOf_eraseAt]
          exact hinp i2 (List.mem_cons_of_mem _ hi2)
        rw [ih (eraseAt g i) hrest x]
        exact usersOf_eraseAt_empty_inputs g i (hinp i (List.mem_cons_self _ _)) x
      · rw [if_neg h]
        exact ih g (fun i2 hi2 => hinp i2 (List.mem_cons_of_mem _ hi2)) x

theorem eraseDead_kills (l : List Nat) : ∀ (g : Graph),
    (∀ i ∈ l, inputsOf g i = []) →
    ∀ i ∈ l, usersOf g i = [] → isErased (eraseDead g l) i = true := by
  induction l with
  | nil => intro g _ i hi; exact absurd hi (List.not_mem_nil i)
  | cons i0 rest ih =>
      intro g hinp i hi hu
      rw [eraseDead_cons]
      rcases List.mem_cons.mp hi with heq | hmem
      · subst heq
        rw [if_pos hu]
        exact eraseDead_erased_mono rest _ i (isErased_eraseAt_self g i)
      · by_cases h : usersOf g i0 = []
        · rw [if_pos h]
          have hrest : ∀ i2 ∈ rest, inputsOf (eraseAt g i0) i2 = [] := by
            intro i2 hi2
            rw [inputsOf_eraseAt]
            exact hinp i2 (List.mem_cons_of_mem _ hi2)
          apply ih (eraseAt g i0) hrest i hmem
          rw [usersOf_eraseAt_empty_inputs g i0 (hinp i0 (List.mem_cons_self _ _)) i]
          exact hu
        · rw [if_neg h]
          exact ih g (fun i2 hi2 => hinp i2 (List.mem_cons_of_mem _ hi2)) i hmem hu

theorem mem_liveOfKind (g : Graph) (k : GKind) (i : Nat) :
    i ∈ liveOfKind g k ↔ kindAt g i = some k ∧ isErased g i = false := by
  unfold liveOfKind
  rw [List.mem_filter]
  constructor
  · rintro ⟨hr, hcond⟩
    rw [Bool.and_eq_true, decide_eq_true_eq, Bool.not_eq_true'] at hcond
    exact hcond
  · rintro ⟨hk, he⟩
    have hlt : i < g.length := by
      by_contra hge
      have hnone : g.get? i = none := List.get?_eq_none.mpr (by omega)
      unfold kindAt at hk
      rw [hnone] at hk
      exact absurd hk (by simp)
    refine ⟨List.mem_range.mpr hlt, ?_⟩
    rw [Bool.and_eq_true, decide_eq_true_eq, Bool.not_eq_true']
    exact ⟨hk, he⟩

theorem inputsOf_nil_of_kind (g : Graph)
    (hni : ∀ n ∈ g, (n.kind = GKind.register ∨ n.kind = GKind.iterArg) → n.inputs = [])
    (x : Nat) (k : GKind) (hk : kindAt g x = some k)
    (hkk : k = GKind.register ∨ k = GKind.iterArg) : inputsOf g x = [] := by
  unfold kindAt at hk
  cases hgx : g.get? x with
  | none => rw [hgx] at hk; exact absurd hk (by simp)
  | some nx =>
      rw [hgx] at hk
      have hk2 : some nx.kind = some k := hk
      have hkind : nx.kind = k := by injection hk2
      unfold inputsOf
      rw [hgx]
      exact hni nx (List.get?_mem hgx) (by rw [hkind]; exact hkk)

/-- C7 counterexample: in a graph whose only output-adjacent original
(node 1, already erased) consumes node 0, the cleanup pipeline leaves the
graph unchanged: the walk dequeues the erased node 1 and skips it without
continuing into its operand, so node 0 — a node with zero consumers whose
only consumer is erased — survives unerased. -/
theorem C7_counterexample :
    remove_unused_iter_args (remove_unused_registers
        (remove_original_nodes 5
          [⟨GKind.otherK, [], false⟩, ⟨GKind.otherK, [0], true⟩] [1])) =
      [⟨GKind.otherK, [], false⟩, ⟨GKind.otherK, [0], true⟩] ∧
    isErased [⟨GKind.otherK, [], false⟩, ⟨GKind.otherK, [0], true⟩] 0 = false ∧
    usersOf [⟨GKind.otherK, [], false⟩, ⟨GKind.otherK, [0], true⟩] 0 = [] ∧
    inputsOf [⟨GKind.otherK, [], false⟩, ⟨GKind.otherK, [0], true⟩] 1 = [0] ∧
    isErased [⟨GKind.otherK, [], false⟩, ⟨GKind.otherK, [0], true⟩] 1 = true := by
  decide

/-- C7 amended: (i) after `remove_unused_registers` then
`remove_unused_iter_args` — run after any earlier erasures — no live
register-creation or loop-carried-argument node has zero consumers, given
that such nodes carry no operands (as `NewRegister` and `IterArg` do);
(ii) `remove_original_nodes` never un-erases a node; (iii) it erases only
nodes that end with zero consumers.  The walk enqueues a non-erased node's
operands before the erasure check, so it continues past nodes it erases
itself, but — contrary to the claim — it skips a node already erased when
dequeued without visiting its operands (see the counterexample). -/
theorem C7_cleanup_amended :
    (∀ (g : Graph),
        (∀ n ∈ g, (n.kind = GKind.register ∨ n.kind = GKind.iterArg) → n.inputs = []) →
        ∀ (i : Nat) (n2 : GNode),
          (remove_unused_iter_args (remove_unused_registers g)).get? i = some n2 →
          (n2.kind = GKind.register ∨ n2.kind = GKind.iterArg) →
          n2.erased = false →
          usersOf (remove_unused_iter_args (remove_unused_registers g)) i ≠ []) ∧
    (∀ (fuel : Nat) (g : Graph) (q : List Nat) (i : Nat),
        isErased g i = true → isErased (remove_original_nodes fuel g q) i = true) ∧
    (∀ (fuel : Nat) (g : Graph) (q : List Nat) (i : Nat),
        isErased (remove_original_nodes fuel g q) i = true →
        isErased g i = true ∨ usersOf (remove_original_nodes fuel g q) i = []) := by
  refine ⟨?_, ron_erased_mono, ron_only_dead⟩
  intro g hni i n2 hget hkind herased
  have hinp1 : ∀ x ∈ liveOfKind g GKind.register, inputsOf g x = [] := fun x hx =>
    inputsOf_nil_of_kind g hni x _ ((mem_liveOfKind g _ x).mp hx).1 (Or.inl rfl)
  have hkind_g1 : ∀ x, kindAt (remove_unused_registers g) x = kindAt g x :=
    fun x => eraseDead_kind _ g x
  have hinp_g1 : ∀ x, inputsOf (remove_unused_registers g) x = inputsOf g x :=
    fun x => eraseDead_inputs _ g x
  have hinp2 : ∀ x ∈ liveOfKind (remove_unused_registers g) GKind.iterArg,
      inputsOf (remove_unused_registers g) x = [] := by
    intro x hx
    have hk := ((mem_liveOfKind _ _ x).mp hx).1
    rw [hkind_g1 x] at hk
    rw [hinp_g1 x]
    exact inputsOf_nil_of_kind g hni x _ hk (Or.inr rfl)
  have husers1 : ∀ x, usersOf (remove_unused_registers g) x = usersOf g x :=
    eraseDead_users _ g hinp1
  have husers2 : ∀ x, usersOf (remove_unused_iter_args (remove_unused_registers g)) x =
      usersOf (remove_unused_registers g) x :=
    eraseDead_users _ _ hinp2
  have hkind_g2 : ∀ x, kindAt (remove_unused_iter_args (remove_unused_registers g)) x =
      kindAt (remove_unused_registers g) x :=
    fun x => eraseDead_kind _ _ x
  have herased2 : isErased (remove_unused_iter_args (remove_unused_registers g)) i = false := by
    unfold isErased
    rw [hget]
    exact herased
  have herased1 : isErased (remove_unused_registers g) i = false := by
    rcases Bool.eq_false_or_eq_true (isErased (remove_unused_registers g) i) with hb | hb
    · have h2 : isErased (remove_unused_iter_args (remove_unused_registers g)) i = true :=
        eraseDead_erased_mono _ _ i hb
      rw [h2] at herased2
      exact Bool.noConfusion herased2
    · exact hb
  have herased0 : isErased g i = false := by
    rcases Bool.eq_false_or_eq_true (isErased g i) with hb | hb
    · have h2 : isErased (remove_unused_registers g) i = true :=
        eraseDead_erased_mono _ _ i hb
      rw [h2] at herased1
      exact Bool.noConfusion herased1
    · exact hb
  have hkAt : kindAt g i = some n2.kind := by
    have h2 : kindAt (remove_unused_iter_args (remove_unused_registers g)) i = some n2.kind := by
      unfold kindAt
      rw [hget]
      rfl
    rw [hkind_g2 i, hkind_g1 i] at h2
    exact h2
  rcases hkind with hr | hia
  · have hmem : i ∈ liveOfKind g GKind.register :=
      (mem_liveOfKind g _ i).mpr ⟨by rw [hkAt, hr], herased0⟩
    intro hcon
    have hu : usersOf g i = [] := by
      rw [← husers1 i, ← husers2 i]
      exact hcon
    have hkill : isErased (remove_unused_registers g) i = true :=
      eraseDead_kills _ g hinp1 i hmem hu
    have h2 : isErased (remove_unused_iter_args (remove_unused_registers g)) i = true :=
      eraseDead_erased_mono _ _ i hkill
    rw [h2] at herased2
    exact Bool.noConfusion herased2
  · have hmem : i ∈ liveOfKind (remove_unused_registers g) GKind.iterArg :=
      (mem_liveOfKind _ _ i).mpr ⟨by rw [hkind_g1 i, hkAt, hia], herased1⟩
    intro hcon
    have hu1 : usersOf (remove_unused_registers g) i = [] := by
      rw [← husers2 i]
      exact hcon
    have h2 : isErased (remove_unused_iter_args (remove_unused_registers g)) i = true :=
      eraseDead_kills _ _ hinp2 i hmem hu1
    rw [h2] at herased2
    exact Bool.noConfusion herased2

/-- Witness for the amended C7: in a graph with a register consumed by a
live node, the register survives the cleanup with a nonzero consumer
count. -/
theorem C7_cleanup_witness :
    usersOf (remove_unused_iter_args (remove_unused_registers
        [⟨GKind.register, [], false⟩, ⟨GKind.otherK, [0], false⟩])) 0 ≠ [] :=
  C7_cleanup_amended.1
    [⟨GKind.register, [], false⟩, ⟨GKind.otherK, [0], false⟩]
    (by decide) 0 ⟨GKind.register, [], false⟩ (by decide) (Or.inl rfl) rfl

end WaveSpec
